import Mathlib

/-!
Verification of the TravelCalculator expense tracker (`streamlit_app.py`).

The `ExpenseTracker` class is embedded shallowly:

* Python `dict`s (insertion ordered, unique keys) become association lists
  `Dict α := List (String × α)` with update-in-place (`dset`) and
  first-occurrence deletion (`ddel`), matching `d[k] = v` and `del d[k]`.
* Python `float` amounts are modelled as exact rationals `ℚ`. This is a real
  gap: the program adds and subtracts IEEE-754 doubles, which round (for
  example `(0.1 + 0.2) - 0.2 = 0.10000000000000003` in Python). Structural
  properties (which entries are touched, with which share expression, in
  which direction, which expenses are removed) and sign-symmetric invariants
  (antisymmetry, zero-sum: rounding applies equally to a value and its
  negation) transfer to the program; value-level EXACT-restoration equalities
  hold only in this rational model and are not claimed of the program.
* Python statements that can raise (`KeyError` on a missing dict key,
  `ZeroDivisionError` on `amount / len([])`) become `Except PErr` values; an
  exception abandons the state, mirroring the fact that the caller observes a
  crash rather than a result.
* The timestamp field `date` (wall-clock `datetime.now()`) is omitted; no
  claim refers to it.

The six operations reachable from the UI wiring in `main` are collected in an
`Op` type with an interpreter `run`, so that "state reachable by a sequence of
operations" becomes `run (initTracker nm) ops = .ok t`.
-/

namespace TravelCalc

attribute [local semireducible] Rat.mul Rat.add Rat.sub Rat.inv

/-- Python exceptions that the tracker's methods can raise. -/
inductive PErr where
  | keyError
  | zeroDivisionError
deriving DecidableEq

/-- Decidable equality on `Except`, so that concrete operation results can be
checked by `decide`. -/
instance {ε α : Type} [DecidableEq ε] [DecidableEq α] : DecidableEq (Except ε α)
  | .error a, .error b =>
      if h : a = b then .isTrue (by rw [h])
      else .isFalse (by intro hc; injection hc; contradiction)
  | .error _, .ok _ => .isFalse (by intro hc; injection hc)
  | .ok _, .error _ => .isFalse (by intro hc; injection hc)
  | .ok a, .ok b =>
      if h : a = b then .isTrue (by rw [h])
      else .isFalse (by intro hc; injection hc; contradiction)

/-- A Python `for` loop whose body may raise: runs the body on each element in
order, propagating the first exception. -/
def pyFold {σ α : Type} (step : σ → α → Except PErr σ) : σ → List α → Except PErr σ
  | b, [] => .ok b
  | b, x :: l =>
      match step b x with
      | .error err => .error err
      | .ok b1 => pyFold step b1 l

/-- A Python `dict` with string keys, as an insertion-ordered association list. -/
abbrev Dict (α : Type) := List (String × α)

/-- Lookup, `d[k]` / `d.get(k)`: first entry whose key matches. -/
def dget? {α : Type} : Dict α → String → Option α
  | [], _ => none
  | (k', v') :: d, k => if k' = k then some v' else dget? d k

/-- Assignment `d[k] = v`: overwrite the first entry with key `k` in place,
else append at the end (Python dicts keep insertion order). -/
def dset {α : Type} : Dict α → String → α → Dict α
  | [], k, v => [(k, v)]
  | (k', v') :: d, k, v => if k' = k then (k, v) :: d else (k', v') :: dset d k v

/-- Deletion `del d[k]`: drop the first entry with key `k`. -/
def ddel {α : Type} : Dict α → String → Dict α
  | [], _ => []
  | (k', v') :: d, k => if k' = k then d else (k', v') :: ddel d k

/-- The key list of a dict. -/
def dkeys {α : Type} (d : Dict α) : List String := d.map Prod.fst

/-- Sum of the values of a rational-valued dict. -/
def dsum (d : Dict ℚ) : ℚ := (d.map Prod.snd).sum

/-- `self.balances`: outer key = debtor-side row owner, inner key = the other
participant, value = signed amount. -/
abbrev Balances := Dict (Dict ℚ)

/-- Two-level lookup `balances[A][B]` as an optional value. -/
def dget2 (b : Balances) (A B : String) : Option ℚ :=
  (dget? b A).bind (fun row => dget? row B)

/-- The balance matrix read as a total function, missing entries read as 0
(the `.get(k, 0)` view used by `update_balances`). -/
def bview (b : Balances) (A B : String) : ℚ := (dget2 b A B).getD 0

/-- Sum of all populated entries of the balance matrix. -/
def bsum (b : Balances) : ℚ := (b.map (fun row => dsum row.2)).sum

/-- A settled expense as stored in `self.expenses` (the `date` field of the
source, a wall-clock timestamp, is omitted; no claim depends on it). -/
structure Expense where
  id : String
  paidBy : String
  amount : ℚ
  description : String
  splitAmong : List String
deriving DecidableEq

/-- A staged bill as stored in `self.bills`. -/
structure Bill where
  description : String
  amount : ℚ
  paidBy : String
  splitAmong : List String
deriving DecidableEq

/-- The `ExpenseTracker` object state. -/
structure Tracker where
  name : String
  friends : List String
  expenses : List Expense
  balances : Balances
  bills : List Bill
deriving DecidableEq

/-- `ExpenseTracker.__init__`. -/
def initTracker (nm : String) : Tracker :=
  { name := nm, friends := [], expenses := [], balances := [], bills := [] }

/-- Python `str.capitalize()` on one word: first character uppercased, the
rest lowercased. -/
def capWord : List Char → List Char
  | [] => []
  | c :: cs => c.toUpper :: cs.map Char.toLower

/-- Python `str.split()` with no separator: splits on runs of whitespace and
drops empty pieces. The second argument accumulates the current word in
reverse. (Implemented directly by structural recursion on the character
list; `String.split` with a whitespace predicate plus a non-empty filter
computes the same word list.) -/
def splitWords : List Char → List Char → List (List Char)
  | [], acc => if acc.isEmpty then [] else [acc.reverse]
  | c :: cs, acc =>
      if c.isWhitespace then
        if acc.isEmpty then splitWords cs [] else acc.reverse :: splitWords cs []
      else splitWords cs (c :: acc)

/-- Python `' '.join(words)`. -/
def joinSpace : List (List Char) → List Char
  | [] => []
  | [w] => w
  | w :: ws => w ++ ' ' :: joinSpace ws

/-- The canonical form used by `add_friend`:
`' '.join(word.capitalize() for word in name.split())`. -/
def canonicalName (nm : String) : String :=
  String.mk (joinSpace ((splitWords nm.data []).map capWord))

/-- `ExpenseTracker.add_friend`. -/
def add_friend (t : Tracker) (nm : String) : Tracker :=
  let c := canonicalName nm
  if c ∈ t.friends then t
  else { t with friends := t.friends ++ [c], balances := dset t.balances c [] }

/-- `ExpenseTracker.remove_friend`: removes the friend, deletes its (outer)
balance row, and erases the first occurrence of the name from the
`splitAmong` list of every expense and every bill. Raises `KeyError` if the
name is a friend but has no balance row (impossible in reachable states). -/
def remove_friend (t : Tracker) (nm : String) : Except PErr Tracker :=
  if nm ∈ t.friends then
    match dget? t.balances nm with
    | none => .error .keyError
    | some _ =>
        .ok { t with
              friends := t.friends.erase nm,
              balances := ddel t.balances nm,
              expenses := t.expenses.map
                (fun e => { e with splitAmong := e.splitAmong.erase nm }),
              bills := t.bills.map
                (fun bi => { bi with splitAmong := bi.splitAmong.erase nm }) }
  else .ok t

/-- One iteration of the `update_balances` loop body, for one member `f` of
`splitAmong`:
`balances[paidBy][f] = balances[paidBy].get(f, 0) + per` then
`balances[f][paidBy] = balances[f].get(paidBy, 0) - per`,
each statement raising `KeyError` when the outer row is missing. The `+` here
is exact on `ℚ` where the source adds IEEE-754 doubles; see the header note
on which properties survive that difference. -/
def updStep (pb : String) (per : ℚ) (b : Balances) (f : String) : Except PErr Balances :=
  if f = pb then .ok b
  else
    match dget? b pb with
    | none => .error .keyError
    | some rowPb =>
        let b1 := dset b pb (dset rowPb f ((dget? rowPb f).getD 0 + per))
        match dget? b1 f with
        | none => .error .keyError
        | some rowF => .ok (dset b1 f (dset rowF pb ((dget? rowF pb).getD 0 - per)))

/-- `ExpenseTracker.update_balances`: `per_person = amount / len(splitAmong)`
(`ZeroDivisionError` on an empty split) and then the loop over `splitAmong`. -/
def update_balances (b : Balances) (e : Expense) : Except PErr Balances :=
  if e.splitAmong.length = 0 then .error .zeroDivisionError
  else pyFold (updStep e.paidBy (e.amount / (e.splitAmong.length : ℚ))) b e.splitAmong

/-- `ExpenseTracker.add_expense`: builds the expense with
`id = str(len(self.expenses) + 1)`, appends it, and updates balances. -/
def add_expense (t : Tracker) (pb : String) (amount : ℚ) (descr : String)
    (split : List String) : Except PErr Tracker :=
  let e : Expense :=
    { id := toString (t.expenses.length + 1), paidBy := pb, amount := amount,
      description := descr, splitAmong := split }
  match update_balances t.balances e with
  | .error err => .error err
  | .ok b => .ok { t with expenses := t.expenses ++ [e], balances := b }

/-- One iteration of the `cancel_expense` loop body:
`balances[paidBy][f] -= per` then `balances[f][paidBy] += per`; an augmented
assignment reads the existing entry, so a missing inner key raises `KeyError`.
The `-=` is exact on `ℚ` where the source subtracts IEEE-754 doubles, so
record-then-cancel restores entries exactly only in this model; the program
can leave rounding residues. -/
def cancelStep (pb : String) (per : ℚ) (b : Balances) (f : String) : Except PErr Balances :=
  if f = pb then .ok b
  else
    match dget? b pb with
    | none => .error .keyError
    | some rowPb =>
        match dget? rowPb f with
        | none => .error .keyError
        | some v =>
            let b1 := dset b pb (dset rowPb f (v - per))
            match dget? b1 f with
            | none => .error .keyError
            | some rowF =>
                match dget? rowF pb with
                | none => .error .keyError
                | some w => .ok (dset b1 f (dset rowF pb (w + per)))

/-- `ExpenseTracker.cancel_expense`: find the first expense with the given id
(silent no-op when absent), recompute `per_person` from the stored amount and
the current stored split list, reverse the contribution, and drop every
expense carrying the id. -/
def cancel_expense (t : Tracker) (eid : String) : Except PErr Tracker :=
  match t.expenses.find? (fun e => e.id == eid) with
  | none => .ok t
  | some e =>
      if e.splitAmong.length = 0 then .error .zeroDivisionError
      else
        match pyFold (cancelStep e.paidBy (e.amount / (e.splitAmong.length : ℚ)))
            t.balances e.splitAmong with
        | .error err => .error err
        | .ok b =>
            .ok { t with balances := b,
                         expenses := t.expenses.filter (fun e2 => e2.id != eid) }

/-- The Add Bill form handler in `main`: validates the fields and appends a
bill to `self.bills`; an invalid submission leaves the state unchanged. -/
def stage_bill (t : Tracker) (descr : String) (amount : ℚ) (pb : String)
    (split : List String) : Tracker :=
  if descr ≠ "" ∧ 0 < amount ∧ pb ≠ "" ∧ split ≠ [] then
    { t with bills := t.bills ++ [{ description := descr, amount := amount,
                                    paidBy := pb, splitAmong := split }] }
  else t

/-- The Submit All Bills button in `main`: `add_expense` for every staged bill
in order, then `tracker.bills = []`. -/
def submit_all (t : Tracker) : Except PErr Tracker :=
  match pyFold
      (fun acc bi => add_expense acc bi.paidBy bi.amount bi.description bi.splitAmong)
      t t.bills with
  | .error err => .error err
  | .ok t2 => .ok { t2 with bills := [] }

/-- The operations the UI layer can invoke on a tracker. -/
inductive Op where
  | addFriend (nm : String)
  | removeFriend (nm : String)
  | addExpense (pb : String) (amount : ℚ) (descr : String) (split : List String)
  | cancelExpense (eid : String)
  | stageBill (descr : String) (amount : ℚ) (pb : String) (split : List String)
  | submitAll
deriving DecidableEq

/-- Apply one operation. -/
def applyOp (t : Tracker) : Op → Except PErr Tracker
  | .addFriend nm => .ok (add_friend t nm)
  | .removeFriend nm => remove_friend t nm
  | .addExpense pb a d s => add_expense t pb a d s
  | .cancelExpense eid => cancel_expense t eid
  | .stageBill d a pb s => .ok (stage_bill t d a pb s)
  | .submitAll => submit_all t

/-- Run a sequence of operations; an exception aborts the run. -/
def run (t : Tracker) : List Op → Except PErr Tracker
  | [] => .ok t
  | op :: rest =>
      match applyOp t op with
      | .error err => .error err
      | .ok t2 => run t2 rest

/-- True for every operation except `removeFriend`. -/
def opKeeps : Op → Bool
  | .removeFriend _ => false
  | _ => true

/-- A sequence that never removes a participant. -/
def noRemove (ops : List Op) : Bool := ops.all opKeeps

/-- Antisymmetry of the populated part of the balance matrix. -/
def antisymB (b : Balances) : Prop :=
  ∀ A B v, dget2 b A B = some v → dget2 b B A = some (-v)

/-- The diagonal of the balance matrix is never populated. -/
def diagB (b : Balances) : Prop := ∀ A, dget2 b A A = none

/-- Invariant carried through remove-free runs: the balance rows track the
friend list exactly, the matrix is antisymmetric with an unpopulated
diagonal, and the populated entries sum to zero. -/
def TInv (t : Tracker) : Prop :=
  dkeys t.balances = t.friends ∧ t.friends.Nodup ∧ antisymB t.balances ∧
    diagB t.balances ∧ bsum t.balances = 0

/-- Invariant carried through arbitrary runs (removures included): the outer
keys are distinct and the diagonal is unpopulated. -/
def DInv (t : Tracker) : Prop := (dkeys t.balances).Nodup ∧ diagB t.balances

/-- Multiplicity with which the `update_balances` loop over `l` touches the
entry `(A, B)` in the paying direction. -/
def cntTo (pb A B : String) (l : List String) : ℕ :=
  l.countP (fun f => (f != pb) && (A == pb) && (B == f))

/-- Multiplicity with which the loop touches `(A, B)` in the owing direction. -/
def cntFrom (pb A B : String) (l : List String) : ℕ :=
  l.countP (fun f => (f != pb) && (A == f) && (B == pb))

/-- The expenses that `submit_all` creates from a bill list, when the ids
start counting from `n + 1`. -/
def convertBills (n : ℕ) : List Bill → List Expense
  | [] => []
  | bi :: rest =>
      { id := toString (n + 1), paidBy := bi.paidBy, amount := bi.amount,
        description := bi.description, splitAmong := bi.splitAmong } :: convertBills (n + 1) rest

/-- Scenario: three expenses are recorded and the middle one cancelled, so the
expense count drops to 2 while an expense with id "3" survives. -/
def preOps : List Op :=
  [.addFriend "Alice", .addFriend "Bob",
   .addExpense "Alice" 2 "a" ["Alice", "Bob"],
   .addExpense "Alice" 4 "b" ["Alice", "Bob"],
   .addExpense "Alice" 8 "c" ["Alice", "Bob"],
   .cancelExpense "2"]

/-- The state reached by `preOps`. -/
def preTracker : Tracker :=
  { name := "g", friends := ["Alice", "Bob"],
    expenses :=
      [{ id := "1", paidBy := "Alice", amount := 2, description := "a",
         splitAmong := ["Alice", "Bob"] },
       { id := "3", paidBy := "Alice", amount := 8, description := "c",
         splitAmong := ["Alice", "Bob"] }],
    balances := [("Alice", [("Bob", 5)]), ("Bob", [("Alice", -5)])],
    bills := [] }

/-- Scenario: `preOps` followed by one more recording, which is assigned
`str(2 + 1) = "3"` although an expense with id "3" already exists. -/
def dupOps : List Op := preOps ++ [.addExpense "Alice" 100 "x" ["Alice", "Bob"]]

/-- The state reached by `dupOps`: two distinct expenses both carry id "3". -/
def dupTracker : Tracker :=
  { name := "g", friends := ["Alice", "Bob"],
    expenses :=
      [{ id := "1", paidBy := "Alice", amount := 2, description := "a",
         splitAmong := ["Alice", "Bob"] },
       { id := "3", paidBy := "Alice", amount := 8, description := "c",
         splitAmong := ["Alice", "Bob"] },
       { id := "3", paidBy := "Alice", amount := 100, description := "x",
         splitAmong := ["Alice", "Bob"] }],
    balances := [("Alice", [("Bob", 55)]), ("Bob", [("Alice", -55)])],
    bills := [] }

/-- The state after cancelling id "3" in `dupTracker`: both id-"3" expenses
are removed from history, but only the first one's contribution (share 4 of
the amount-8 expense) is reversed. -/
def dupCancelled : Tracker :=
  { name := "g", friends := ["Alice", "Bob"],
    expenses :=
      [{ id := "1", paidBy := "Alice", amount := 2, description := "a",
         splitAmong := ["Alice", "Bob"] }],
    balances := [("Alice", [("Bob", 51)]), ("Bob", [("Alice", -51)])],
    bills := [] }

/-- Replay of exactly the history left in `dupCancelled` (the single amount-2
expense), showing the balances that history implies. -/
def replayOps : List Op :=
  [.addFriend "Alice", .addFriend "Bob", .addExpense "Alice" 2 "a" ["Alice", "Bob"]]

/-- The state reached by `replayOps`. -/
def replayTracker : Tracker :=
  { name := "g", friends := ["Alice", "Bob"],
    expenses :=
      [{ id := "1", paidBy := "Alice", amount := 2, description := "a",
         splitAmong := ["Alice", "Bob"] }],
    balances := [("Alice", [("Bob", 1)]), ("Bob", [("Alice", -1)])],
    bills := [] }

/-- Scenario: record an expense between Alice and Bob, remove Bob, re-add Bob,
record a second expense. The stale inner entry `balances["Alice"]["Bob"]`
survives the removal, so the two directions go out of sync. -/
def c3Ops : List Op :=
  [.addFriend "Alice", .addFriend "Bob",
   .addExpense "Alice" 10 "d" ["Alice", "Bob"],
   .removeFriend "Bob", .addFriend "Bob",
   .addExpense "Alice" 10 "d2" ["Alice", "Bob"]]

/-- The state reached by `c3Ops`: `balances["Alice"]["Bob"] = 10` but
`balances["Bob"]["Alice"] = -5`. -/
def c3Tracker : Tracker :=
  { name := "g", friends := ["Alice", "Bob"],
    expenses :=
      [{ id := "1", paidBy := "Alice", amount := 10, description := "d",
         splitAmong := ["Alice"] },
       { id := "2", paidBy := "Alice", amount := 10, description := "d2",
         splitAmong := ["Alice", "Bob"] }],
    balances := [("Alice", [("Bob", 10)]), ("Bob", [("Alice", -5)])],
    bills := [] }

/-- Scenario: record an expense between Alice and Bob, then remove Bob. Bob's
row is deleted but `balances["Alice"]["Bob"] = 5` survives. -/
def c6Ops : List Op :=
  [.addFriend "Alice", .addFriend "Bob",
   .addExpense "Alice" 10 "d" ["Alice", "Bob"], .removeFriend "Bob"]

/-- The state reached by `c6Ops`. -/
def c6Tracker : Tracker :=
  { name := "g", friends := ["Alice"],
    expenses :=
      [{ id := "1", paidBy := "Alice", amount := 10, description := "d",
         splitAmong := ["Alice"] }],
    balances := [("Alice", [("Bob", 5)])],
    bills := [] }

/-- Scenario: a 30-unit expense split three ways (share 10), then Carol is
removed (shrinking the stored split list to two members), then the expense is
cancelled: the cancellation recomputes the share as 30 / 2 = 15. -/
def c4Ops : List Op :=
  [.addFriend "Alice", .addFriend "Bob", .addFriend "Carol",
   .addExpense "Alice" 30 "d" ["Alice", "Bob", "Carol"],
   .removeFriend "Carol", .cancelExpense "1"]

/-- The state reached by `c4Ops`: the cancellation subtracted 15 instead of
the original share 10, leaving `balances["Alice"]["Bob"] = -5` although the
history is empty. -/
def c4Tracker : Tracker :=
  { name := "g", friends := ["Alice", "Bob"],
    expenses := [],
    balances := [("Alice", [("Bob", -5), ("Carol", 10)]), ("Bob", [("Alice", 5)])],
    bills := [] }

/-- Scenario: an expense split only among Bob, then Bob is removed, emptying
the stored split list of the settled expense. -/
def c9Ops : List Op :=
  [.addFriend "Alice", .addFriend "Bob",
   .addExpense "Alice" 10 "x" ["Bob"], .removeFriend "Bob"]

/-- The state reached by `c9Ops`: expense "1" has an empty `splitAmong`. -/
def c9Tracker : Tracker :=
  { name := "g", friends := ["Alice"],
    expenses :=
      [{ id := "1", paidBy := "Alice", amount := 10, description := "x",
         splitAmong := [] }],
    balances := [("Alice", [("Bob", 10)])],
    bills := [] }

/-- Concrete tracker used to witness the claim C4 theorem: two friends with
empty balance rows. -/
def c4wBase : Tracker :=
  { name := "w", friends := ["Alice", "Bob"], expenses := [],
    balances := [("Alice", []), ("Bob", [])], bills := [] }

/-- State of `c4wBase` after recording a 10-unit expense split two ways. -/
def c4wAfterAdd : Tracker :=
  { name := "w", friends := ["Alice", "Bob"],
    expenses :=
      [{ id := "1", paidBy := "Alice", amount := 10, description := "d",
         splitAmong := ["Alice", "Bob"] }],
    balances := [("Alice", [("Bob", 5)]), ("Bob", [("Alice", -5)])],
    bills := [] }

/-- State of `c4wAfterAdd` after cancelling the new expense: the populated
entries return to 0. -/
def c4wAfterCancel : Tracker :=
  { name := "w", friends := ["Alice", "Bob"], expenses := [],
    balances := [("Alice", [("Bob", 0)]), ("Bob", [("Alice", 0)])], bills := [] }

/-- Concrete remove-free operation sequence used to witness the claim C3
theorem. -/
def c3wOps : List Op :=
  [.addFriend "Ann", .addFriend "Ben", .addExpense "Ann" 8 "w" ["Ann", "Ben"]]

/-- The state reached by `c3wOps`. -/
def c3wTracker : Tracker :=
  { name := "w", friends := ["Ann", "Ben"],
    expenses :=
      [{ id := "1", paidBy := "Ann", amount := 8, description := "w",
         splitAmong := ["Ann", "Ben"] }],
    balances := [("Ann", [("Ben", 4)]), ("Ben", [("Ann", -4)])],
    bills := [] }

/-- Concrete remove-free operation sequence used to witness the claim C6
theorem. -/
def c6wOps : List Op :=
  [.addFriend "Cy", .addFriend "Di", .addExpense "Cy" 6 "w" ["Cy", "Di"]]

/-- The state reached by `c6wOps`. -/
def c6wTracker : Tracker :=
  { name := "w", friends := ["Cy", "Di"],
    expenses :=
      [{ id := "1", paidBy := "Cy", amount := 6, description := "w",
         splitAmong := ["Cy", "Di"] }],
    balances := [("Cy", [("Di", 3)]), ("Di", [("Cy", -3)])],
    bills := [] }

/-- Concrete tracker used to witness the claim C5 theorem: a settled expense,
populated balances, and one staged bill that all mention Bob. -/
def c5wTracker : Tracker :=
  { name := "w", friends := ["Alice", "Bob"],
    expenses :=
      [{ id := "1", paidBy := "Alice", amount := 10, description := "d",
         splitAmong := ["Alice", "Bob"] }],
    balances := [("Alice", [("Bob", 5)]), ("Bob", [("Alice", -5)])],
    bills := [{ description := "bd", amount := 3, paidBy := "Bob",
                splitAmong := ["Alice", "Bob"] }] }

/-- Concrete tracker used to witness the claim C7 theorem: one staged bill
ready to submit. -/
def c7wTracker : Tracker :=
  { name := "w", friends := ["Al"], expenses := [], balances := [("Al", [])],
    bills := [{ description := "d", amount := 5, paidBy := "Al",
                splitAmong := ["Al"] }] }

/-- State of `c7wTracker` after `submit_all`. -/
def c7wDone : Tracker :=
  { name := "w", friends := ["Al"],
    expenses :=
      [{ id := "1", paidBy := "Al", amount := 5, description := "d",
         splitAmong := ["Al"] }],
    balances := [("Al", [])], bills := [] }

/-- Concrete bill data staged in the claim C7 witness. -/
def c7wStaged : List (String × ℚ × String × List String) :=
  [("d1", 3, "Al", ["Al"]), ("", 2, "Al", ["Al"])]

/-! ### Association-list lemmas -/

theorem dget?_dset_self {α : Type} (d : Dict α) (k : String) (v : α) :
    dget? (dset d k v) k = some v := by
  induction d with
  | nil => simp [dset, dget?]
  | cons p d ih =>
      obtain ⟨k1, v1⟩ := p
      by_cases h : k1 = k
      · simp [dset, dget?, h]
      · simp [dset, dget?, h, ih]

theorem dget?_dset_ne {α : Type} {d : Dict α} {k : String} {v : α} {k2 : String}
    (h : k2 ≠ k) : dget? (dset d k v) k2 = dget? d k2 := by
  induction d with
  | nil => simp [dset, dget?, Ne.symm h]
  | cons p d ih =>
      obtain ⟨k1, v1⟩ := p
      by_cases h1 : k1 = k
      · subst h1
        simp [dset, dget?, Ne.symm h]
      · simp [dset, dget?, h1, ih]

theorem dget?_eq_none {α : Type} (d : Dict α) (k : String) :
    dget? d k = none ↔ k ∉ dkeys d := by
  induction d with
  | nil => simp [dget?, dkeys]
  | cons p d ih =>
      obtain ⟨k1, v1⟩ := p
      by_cases h : k1 = k
      · simp [dget?, dkeys, h]
      · simp [dget?, dkeys, h, ih, Ne.symm h]

theorem mem_dkeys_of_dget? {α : Type} {d : Dict α} {k : String} {v : α}
    (h : dget? d k = some v) : k ∈ dkeys d := by
  by_contra hk
  rw [← dget?_eq_none d k] at hk
  rw [h] at hk
  exact Option.noConfusion hk

theorem dkeys_dset_mem {α : Type} {d : Dict α} {k : String} (v : α)
    (h : k ∈ dkeys d) : dkeys (dset d k v) = dkeys d := by
  induction d with
  | nil => simp [dkeys] at h
  | cons p d ih =>
      obtain ⟨k1, v1⟩ := p
      by_cases h1 : k1 = k
      · simp [dset, dkeys, h1]
      · have h2 : k = k1 ∨ k ∈ dkeys d := by simpa [dkeys] using h
        have h3 : k ∈ dkeys d := h2.resolve_left (fun hk => h1 hk.symm)
        simp [dset, dkeys, h1]
        exact ih h3

theorem dkeys_dset_not_mem {α : Type} {d : Dict α} {k : String} (v : α)
    (h : k ∉ dkeys d) : dkeys (dset d k v) = dkeys d ++ [k] := by
  induction d with
  | nil => simp [dset, dkeys]
  | cons p d ih =>
      obtain ⟨k1, v1⟩ := p
      have h2 : ¬(k = k1 ∨ k ∈ dkeys d) := by simpa [dkeys] using h
      push_neg at h2
      have h1 : k1 ≠ k := Ne.symm h2.1
      simp [dset, dkeys, h1]
      exact ih h2.2

theorem dget?_ddel_ne {α : Type} {d : Dict α} {k : String} {k2 : String}
    (h : k2 ≠ k) : dget? (ddel d k) k2 = dget? d k2 := by
  induction d with
  | nil => simp [ddel]
  | cons p d ih =>
      obtain ⟨k1, v1⟩ := p
      by_cases h1 : k1 = k
      · subst h1
        simp [ddel, dget?, Ne.symm h]
      · simp [ddel, dget?, h1, ih]

theorem dkeys_ddel {α : Type} (d : Dict α) (k : String) :
    dkeys (ddel d k) = (dkeys d).erase k := by
  induction d with
  | nil => simp [ddel, dkeys]
  | cons p d ih =>
      obtain ⟨k1, v1⟩ := p
      by_cases h1 : k1 = k
      · simp [ddel, dkeys, h1, List.erase_cons]
      · simp [ddel, dkeys, h1, List.erase_cons]
        exact ih

theorem dget?_ddel_self {α : Type} {d : Dict α} (k : String)
    (h : (dkeys d).Nodup) : dget? (ddel d k) k = none := by
  induction d with
  | nil => simp [ddel, dget?]
  | cons p d ih =>
      obtain ⟨k1, v1⟩ := p
      have h2 : k1 ∉ dkeys d ∧ (dkeys d).Nodup :=
        List.nodup_cons.mp (show (k1 :: dkeys d).Nodup from h)
      by_cases h1 : k1 = k
      · subst h1
        simp [ddel]
        rw [dget?_eq_none]
        exact h2.1
      · simp [ddel, dget?, h1, ih h2.2]

theorem dsum_dset (d : Dict ℚ) (k : String) (v : ℚ) :
    dsum (dset d k v) = dsum d + v - (dget? d k).getD 0 := by
  induction d with
  | nil => simp [dset, dsum, dget?]
  | cons p d ih =>
      obtain ⟨k1, v1⟩ := p
      by_cases h : k1 = k
      · simp [dset, dsum, dget?, h]
        ring
      · simp [dset, dsum, dget?, h] at ih ⊢
        rw [ih]
        ring

theorem bsum_dset (b : Balances) (k : String) (r : Dict ℚ) :
    bsum (dset b k r) = bsum b + dsum r - dsum ((dget? b k).getD []) := by
  induction b with
  | nil => simp [dset, bsum, dget?, dsum]
  | cons p b ih =>
      obtain ⟨k1, r1⟩ := p
      by_cases h : k1 = k
      · simp [dset, bsum, dget?, h]
        ring
      · simp [dset, bsum, dget?, h] at ih ⊢
        rw [ih]
        ring

/-! ### Characterization of the loop bodies -/

theorem pyFold_ok_cons {σ α : Type} (step : σ → α → Except PErr σ) (x : α) (l : List α)
    (b b2 : σ) (h : pyFold step b (x :: l) = .ok b2) :
    ∃ b1, step b x = .ok b1 ∧ pyFold step b1 l = .ok b2 := by
  simp only [pyFold] at h
  cases hs : step b x with
  | error e => rw [hs] at h; exact absurd h (by simp)
  | ok b1 => rw [hs] at h; exact ⟨b1, rfl, h⟩

theorem updStep_char (pb : String) (per : ℚ) (f : String) (b b2 : Balances) (hf : f ≠ pb)
    (h : updStep pb per b f = .ok b2) :
    (∀ A B, dget2 b2 A B =
        if A = pb ∧ B = f then some (bview b pb f + per)
        else if A = f ∧ B = pb then some (bview b f pb - per)
        else dget2 b A B)
      ∧ bsum b2 = bsum b ∧ dkeys b2 = dkeys b := by
  rw [updStep, if_neg hf] at h
  cases hpb : dget? b pb with
  | none => rw [hpb] at h; exact absurd h (by simp)
  | some rowPb =>
      rw [hpb] at h
      simp only [] at h
      have hbf : dget? (dset b pb (dset rowPb f ((dget? rowPb f).getD 0 + per))) f
          = dget? b f := dget?_dset_ne hf
      rw [hbf] at h
      cases hf2 : dget? b f with
      | none => rw [hf2] at h; exact absurd h (by simp)
      | some rowF =>
          rw [hf2] at h
          simp only [Except.ok.injEq] at h
          subst h
          have hx : bview b pb f = (dget? rowPb f).getD 0 := by
            simp [bview, dget2, hpb]
          have hy : bview b f pb = (dget? rowF pb).getD 0 := by
            simp [bview, dget2, hf2]
          refine ⟨?_, ?_, ?_⟩
          · intro A B
            by_cases hA1 : A = pb
            · subst hA1
              by_cases hB : B = f
              · subst hB
                simp [dget2, dget?_dset_self, dget?_dset_ne (Ne.symm hf), hx]
              · simp [dget2, dget?_dset_self, dget?_dset_ne (Ne.symm hf),
                  dget?_dset_ne hB, hpb, hB, Ne.symm hf]
            · by_cases hA2 : A = f
              · subst hA2
                by_cases hB : B = pb
                · subst hB
                  simp [dget2, dget?_dset_self, hf, hy]
                · simp [dget2, dget?_dset_self, dget?_dset_ne hB, hf2, hf, hB]
              · simp [dget2, dget?_dset_ne hA2, dget?_dset_ne hA1, hA1, hA2]
          · rw [bsum_dset, hbf, hf2]
            simp only [Option.getD_some]
            rw [bsum_dset, hpb]
            simp only [Option.getD_some]
            rw [dsum_dset, dsum_dset]
            ring
          · have hm1 : f ∈ dkeys (dset b pb (dset rowPb f ((dget? rowPb f).getD 0 + per))) :=
              mem_dkeys_of_dget? (by rw [hbf]; exact hf2)
            have hm2 : pb ∈ dkeys b := mem_dkeys_of_dget? hpb
            rw [dkeys_dset_mem _ hm1, dkeys_dset_mem _ hm2]

theorem cancelStep_char (pb : String) (per : ℚ) (f : String) (b b2 : Balances) (hf : f ≠ pb)
    (h : cancelStep pb per b f = .ok b2) :
    ∃ v w, dget2 b pb f = some v ∧ dget2 b f pb = some w ∧
      (∀ A B, dget2 b2 A B =
          if A = pb ∧ B = f then some (v - per)
          else if A = f ∧ B = pb then some (w + per)
          else dget2 b A B)
        ∧ bsum b2 = bsum b ∧ dkeys b2 = dkeys b := by
  rw [cancelStep, if_neg hf] at h
  cases hpb : dget? b pb with
  | none => rw [hpb] at h; exact absurd h (by simp)
  | some rowPb =>
      rw [hpb] at h
      simp only [] at h
      cases hvf : dget? rowPb f with
      | none => rw [hvf] at h; exact absurd h (by simp)
      | some v =>
          rw [hvf] at h
          simp only [] at h
          have hbf : dget? (dset b pb (dset rowPb f (v - per))) f = dget? b f :=
            dget?_dset_ne hf
          rw [hbf] at h
          cases hf2 : dget? b f with
          | none => rw [hf2] at h; exact absurd h (by simp)
          | some rowF =>
              rw [hf2] at h
              simp only [] at h
              cases hw : dget? rowF pb with
              | none => rw [hw] at h; exact absurd h (by simp)
              | some w =>
                  rw [hw] at h
                  simp only [Except.ok.injEq] at h
                  subst h
                  refine ⟨v, w, by simp [dget2, hpb, hvf], by simp [dget2, hf2, hw],
                    ?_, ?_, ?_⟩
                  · intro A B
                    by_cases hA1 : A = pb
                    · subst hA1
                      by_cases hB : B = f
                      · subst hB
                        simp [dget2, dget?_dset_self, dget?_dset_ne (Ne.symm hf)]
                      · simp [dget2, dget?_dset_self, dget?_dset_ne (Ne.symm hf),
                          dget?_dset_ne hB, hpb, hB, Ne.symm hf]
                    · by_cases hA2 : A = f
                      · subst hA2
                        by_cases hB : B = pb
                        · subst hB
                          simp [dget2, dget?_dset_self, hf]
                        · simp [dget2, dget?_dset_self, dget?_dset_ne hB, hf2, hf, hB]
                      · simp [dget2, dget?_dset_ne hA2, dget?_dset_ne hA1, hA1, hA2]
                  · rw [bsum_dset, hbf, hf2]
                    simp only [Option.getD_some]
                    rw [bsum_dset, hpb]
                    simp only [Option.getD_some]
                    rw [dsum_dset, dsum_dset, hvf, hw]
                    simp only [Option.getD_some]
                    ring
                  · have hm1 : f ∈ dkeys (dset b pb (dset rowPb f (v - per))) :=
                      mem_dkeys_of_dget? (by rw [hbf]; exact hf2)
                    have hm2 : pb ∈ dkeys b := mem_dkeys_of_dget? hpb
                    rw [dkeys_dset_mem _ hm1, dkeys_dset_mem _ hm2]

/-! ### Invariant preservation through the loops -/

theorem bview_antisym {b : Balances} (ha : antisymB b) (A B : String) :
    bview b B A = -bview b A B := by
  unfold bview
  cases hx : dget2 b A B with
  | some v => rw [ha A B v hx]; simp
  | none =>
      cases hy : dget2 b B A with
      | none => simp
      | some w =>
          have := ha B A w hy
          rw [hx] at this
          exact Option.noConfusion this

theorem antisym_of_char {b b1 : Balances} {pb f : String} {x y : ℚ} (hf : f ≠ pb)
    (hyx : y = -x)
    (hchar : ∀ A B, dget2 b1 A B =
        if A = pb ∧ B = f then some x
        else if A = f ∧ B = pb then some y
        else dget2 b A B)
    (ha : antisymB b) : antisymB b1 := by
  intro A B u hu
  rw [hchar A B] at hu
  rw [hchar B A]
  by_cases h1 : A = pb ∧ B = f
  · rw [if_pos h1] at hu
    have n1 : ¬(B = pb ∧ A = f) := fun hh => hf (h1.2.symm.trans hh.1)
    rw [if_neg n1, if_pos ⟨h1.2, h1.1⟩, hyx]
    injection hu with hu2
    rw [← hu2]
  · by_cases h2 : A = f ∧ B = pb
    · rw [if_neg h1, if_pos h2] at hu
      rw [if_pos ⟨h2.2, h2.1⟩]
      injection hu with hu2
      rw [← hu2, hyx]
      simp
    · rw [if_neg h1, if_neg h2] at hu
      have n1 : ¬(B = pb ∧ A = f) := fun hh => h2 ⟨hh.2, hh.1⟩
      have n2 : ¬(B = f ∧ A = pb) := fun hh => h1 ⟨hh.2, hh.1⟩
      rw [if_neg n1, if_neg n2]
      exact ha A B u hu

theorem diag_of_char {b b1 : Balances} {pb f : String} {x y : ℚ} (hf : f ≠ pb)
    (hchar : ∀ A B, dget2 b1 A B =
        if A = pb ∧ B = f then some x
        else if A = f ∧ B = pb then some y
        else dget2 b A B)
    (hd : diagB b) : diagB b1 := by
  intro A
  rw [hchar A A]
  have n1 : ¬(A = pb ∧ A = f) := fun hh => hf (hh.2.symm.trans hh.1)
  have n2 : ¬(A = f ∧ A = pb) := fun hh => hf (hh.1.symm.trans hh.2)
  rw [if_neg n1, if_neg n2]
  exact hd A

theorem upd_fold_main (pb : String) (per : ℚ) (l : List String) :
    ∀ b b2 : Balances, pyFold (updStep pb per) b l = .ok b2 →
      bsum b2 = bsum b ∧ dkeys b2 = dkeys b ∧
        (antisymB b → antisymB b2) ∧ (diagB b → diagB b2) := by
  induction l with
  | nil =>
      intro b b2 h
      simp only [pyFold, Except.ok.injEq] at h
      subst h
      exact ⟨rfl, rfl, id, id⟩
  | cons f l ih =>
      intro b b2 h
      obtain ⟨b1, hs, hrest⟩ := pyFold_ok_cons _ _ _ _ _ h
      by_cases hf : f = pb
      · subst hf
        rw [updStep, if_pos rfl] at hs
        injection hs with hs2
        subst hs2
        exact ih b b2 hrest
      · obtain ⟨hchar, hsum, hkeys⟩ := updStep_char pb per f b b1 hf hs
        obtain ⟨s2, k2, a2, d2⟩ := ih b1 b2 hrest
        refine ⟨by rw [s2, hsum], by rw [k2, hkeys], ?_, ?_⟩
        · intro ha
          exact a2 (antisym_of_char hf
            (by rw [bview_antisym ha]; ring) hchar ha)
        · intro hd
          exact d2 (diag_of_char hf hchar hd)

theorem cancel_fold_main (pb : String) (per : ℚ) (l : List String) :
    ∀ b b2 : Balances, pyFold (cancelStep pb per) b l = .ok b2 →
      bsum b2 = bsum b ∧ dkeys b2 = dkeys b ∧
        (antisymB b → antisymB b2) ∧ (diagB b → diagB b2) := by
  induction l with
  | nil =>
      intro b b2 h
      simp only [pyFold, Except.ok.injEq] at h
      subst h
      exact ⟨rfl, rfl, id, id⟩
  | cons f l ih =>
      intro b b2 h
      obtain ⟨b1, hs, hrest⟩ := pyFold_ok_cons _ _ _ _ _ h
      by_cases hf : f = pb
      · subst hf
        rw [cancelStep, if_pos rfl] at hs
        injection hs with hs2
        subst hs2
        exact ih b b2 hrest
      · obtain ⟨v, w, hv, hw, hchar, hsum, hkeys⟩ := cancelStep_char pb per f b b1 hf hs
        obtain ⟨s2, k2, a2, d2⟩ := ih b1 b2 hrest
        refine ⟨by rw [s2, hsum], by rw [k2, hkeys], ?_, ?_⟩
        · intro ha
          have hwv : w = -v := by
            have h3 := ha pb f v hv
            rw [hw] at h3
            exact Option.some.inj h3
          exact a2 (antisym_of_char hf (by rw [hwv]; ring) hchar ha)
        · intro hd
          exact d2 (diag_of_char hf hchar hd)

/-! ### Quantitative effect of the loops on the zero-default view -/

theorem upd_fold_bview (pb : String) (per : ℚ) (l : List String) :
    ∀ b b2 : Balances, pyFold (updStep pb per) b l = .ok b2 →
      ∀ A B, bview b2 A B =
        bview b A B + per * (cntTo pb A B l : ℚ) - per * (cntFrom pb A B l : ℚ) := by
  induction l with
  | nil =>
      intro b b2 h A B
      simp only [pyFold, Except.ok.injEq] at h
      subst h
      simp [cntTo, cntFrom]
  | cons f l ih =>
      intro b b2 h A B
      obtain ⟨b1, hs, hrest⟩ := pyFold_ok_cons _ _ _ _ _ h
      by_cases hf : f = pb
      · rw [hf] at hs
        rw [updStep, if_pos rfl] at hs
        injection hs with hs2
        subst hs2
        have e1 : cntTo pb A B (f :: l) = cntTo pb A B l := by
          simp [cntTo, List.countP_cons, hf]
        have e2 : cntFrom pb A B (f :: l) = cntFrom pb A B l := by
          simp [cntFrom, List.countP_cons, hf]
        rw [e1, e2]
        exact ih b b2 hrest A B
      · obtain ⟨hchar, hsum, hkeys⟩ := updStep_char pb per f b b1 hf hs
        have e1 : cntTo pb A B (f :: l) =
            cntTo pb A B l + (if A = pb ∧ B = f then 1 else 0) := by
          simp [cntTo, List.countP_cons, hf]
        have e2 : cntFrom pb A B (f :: l) =
            cntFrom pb A B l + (if A = f ∧ B = pb then 1 else 0) := by
          simp [cntFrom, List.countP_cons, hf]
        have hb1 : bview b1 A B = bview b A B +
            (if A = pb ∧ B = f then per else 0) -
            (if A = f ∧ B = pb then per else 0) := by
          by_cases h1 : A = pb ∧ B = f
          · obtain ⟨hA, hB⟩ := h1
            have n2 : ¬(A = f ∧ B = pb) := fun hh => hf (hh.1.symm.trans hA)
            rw [show bview b1 A B = (dget2 b1 A B).getD 0 from rfl, hchar A B,
              if_pos ⟨hA, hB⟩, if_pos ⟨hA, hB⟩, if_neg n2, hA, hB]
            simp
          · by_cases h2 : A = f ∧ B = pb
            · obtain ⟨hA, hB⟩ := h2
              have n1 : ¬(A = pb ∧ B = f) := fun hh => hf (hA.symm.trans hh.1)
              rw [show bview b1 A B = (dget2 b1 A B).getD 0 from rfl, hchar A B,
                if_neg n1, if_pos ⟨hA, hB⟩, if_neg n1, if_pos ⟨hA, hB⟩, hA, hB]
              simp
            · rw [show bview b1 A B = (dget2 b1 A B).getD 0 from rfl, hchar A B,
                if_neg h1, if_neg h2, if_neg h1, if_neg h2]
              simp [bview]
        rw [ih b1 b2 hrest A B, hb1, e1, e2]
        by_cases h1 : A = pb ∧ B = f
        · by_cases h2 : A = f ∧ B = pb
          · exact absurd (h2.1.symm.trans h1.1) hf
          · rw [if_pos h1, if_neg h2, if_pos h1, if_neg h2]
            push_cast
            ring
        · by_cases h2 : A = f ∧ B = pb
          · rw [if_neg h1, if_pos h2, if_neg h1, if_pos h2]
            push_cast
            ring
          · rw [if_neg h1, if_neg h2, if_neg h1, if_neg h2]
            push_cast
            ring

theorem cancel_fold_bview (pb : String) (per : ℚ) (l : List String) :
    ∀ b b2 : Balances, pyFold (cancelStep pb per) b l = .ok b2 →
      ∀ A B, bview b2 A B =
        bview b A B - per * (cntTo pb A B l : ℚ) + per * (cntFrom pb A B l : ℚ) := by
  induction l with
  | nil =>
      intro b b2 h A B
      simp only [pyFold, Except.ok.injEq] at h
      subst h
      simp [cntTo, cntFrom]
  | cons f l ih =>
      intro b b2 h A B
      obtain ⟨b1, hs, hrest⟩ := pyFold_ok_cons _ _ _ _ _ h
      by_cases hf : f = pb
      · rw [hf] at hs
        rw [cancelStep, if_pos rfl] at hs
        injection hs with hs2
        subst hs2
        have e1 : cntTo pb A B (f :: l) = cntTo pb A B l := by
          simp [cntTo, List.countP_cons, hf]
        have e2 : cntFrom pb A B (f :: l) = cntFrom pb A B l := by
          simp [cntFrom, List.countP_cons, hf]
        rw [e1, e2]
        exact ih b b2 hrest A B
      · obtain ⟨v, w, hv, hw, hchar, hsum, hkeys⟩ := cancelStep_char pb per f b b1 hf hs
        have e1 : cntTo pb A B (f :: l) =
            cntTo pb A B l + (if A = pb ∧ B = f then 1 else 0) := by
          simp [cntTo, List.countP_cons, hf]
        have e2 : cntFrom pb A B (f :: l) =
            cntFrom pb A B l + (if A = f ∧ B = pb then 1 else 0) := by
          simp [cntFrom, List.countP_cons, hf]
        have hb1 : bview b1 A B = bview b A B -
            (if A = pb ∧ B = f then per else 0) +
            (if A = f ∧ B = pb then per else 0) := by
          by_cases h1 : A = pb ∧ B = f
          · obtain ⟨hA, hB⟩ := h1
            have n2 : ¬(A = f ∧ B = pb) := fun hh => hf (hh.1.symm.trans hA)
            rw [show bview b1 A B = (dget2 b1 A B).getD 0 from rfl, hchar A B,
              if_pos ⟨hA, hB⟩, if_pos ⟨hA, hB⟩, if_neg n2, hA, hB]
            simp [bview, hv]
          · by_cases h2 : A = f ∧ B = pb
            · obtain ⟨hA, hB⟩ := h2
              have n1 : ¬(A = pb ∧ B = f) := fun hh => hf (hA.symm.trans hh.1)
              rw [show bview b1 A B = (dget2 b1 A B).getD 0 from rfl, hchar A B,
                if_neg n1, if_pos ⟨hA, hB⟩, if_neg n1, if_pos ⟨hA, hB⟩, hA, hB]
              simp [bview, hw]
            · rw [show bview b1 A B = (dget2 b1 A B).getD 0 from rfl, hchar A B,
                if_neg h1, if_neg h2, if_neg h1, if_neg h2]
              simp [bview]
        rw [ih b1 b2 hrest A B, hb1, e1, e2]
        by_cases h1 : A = pb ∧ B = f
        · by_cases h2 : A = f ∧ B = pb
          · exact absurd (h2.1.symm.trans h1.1) hf
          · rw [if_pos h1, if_neg h2, if_pos h1, if_neg h2]
            push_cast
            ring
        · by_cases h2 : A = f ∧ B = pb
          · rw [if_neg h1, if_pos h2, if_neg h1, if_pos h2]
            push_cast
            ring
          · rw [if_neg h1, if_neg h2, if_neg h1, if_neg h2]
            push_cast
            ring

/-! ### Tracker-level invariants -/

theorem dget2_dset_empty (b : Balances) (c A B : String) :
    dget2 (dset b c []) A B = if A = c then none else dget2 b A B := by
  by_cases hA : A = c
  · rw [if_pos hA, hA]
    simp [dget2, dget?_dset_self, dget?]
  · rw [if_neg hA]
    simp [dget2, dget?_dset_ne hA]

theorem update_balances_ok (b : Balances) (e : Expense) (b2 : Balances)
    (h : update_balances b e = .ok b2) :
    bsum b2 = bsum b ∧ dkeys b2 = dkeys b ∧
      (antisymB b → antisymB b2) ∧ (diagB b → diagB b2) := by
  rw [update_balances] at h
  by_cases hl : e.splitAmong.length = 0
  · rw [if_pos hl] at h
    exact absurd h (by simp)
  · rw [if_neg hl] at h
    exact upd_fold_main _ _ _ b b2 h

theorem add_expense_ok_inv (t : Tracker) (pb : String) (a : ℚ) (descr : String)
    (s : List String) (t2 : Tracker) (h : add_expense t pb a descr s = .ok t2) :
    ∃ b2, update_balances t.balances
        { id := toString (t.expenses.length + 1), paidBy := pb, amount := a,
          description := descr, splitAmong := s } = .ok b2 ∧
      t2 = { t with
             expenses := t.expenses ++
               [{ id := toString (t.expenses.length + 1), paidBy := pb, amount := a,
                  description := descr, splitAmong := s }],
             balances := b2 } := by
  simp only [add_expense] at h
  cases hb : update_balances t.balances
      { id := toString (t.expenses.length + 1), paidBy := pb, amount := a,
        description := descr, splitAmong := s } with
  | error err => rw [hb] at h; exact absurd h (by simp)
  | ok b2 =>
      rw [hb] at h
      simp only [Except.ok.injEq] at h
      exact ⟨b2, rfl, h.symm⟩

theorem TInv_init (nm : String) : TInv (initTracker nm) := by
  unfold TInv initTracker antisymB diagB
  refine ⟨rfl, List.nodup_nil, ?_, ?_, rfl⟩
  · intro A B v h
    simp [dget2, dget?] at h
  · intro A
    rfl

theorem DInv_init (nm : String) : DInv (initTracker nm) := by
  unfold DInv initTracker diagB
  exact ⟨List.nodup_nil, fun A => rfl⟩

theorem TInv_add_friend (t : Tracker) (nm : String) (ht : TInv t) :
    TInv (add_friend t nm) := by
  obtain ⟨hk, hnd, ha, hd, hs⟩ := ht
  simp only [add_friend]
  by_cases hc : canonicalName nm ∈ t.friends
  · rw [if_pos hc]
    exact ⟨hk, hnd, ha, hd, hs⟩
  · rw [if_neg hc]
    have hck : canonicalName nm ∉ dkeys t.balances := by rw [hk]; exact hc
    have hg : dget? t.balances (canonicalName nm) = none := (dget?_eq_none _ _).mpr hck
    refine ⟨?_, ?_, ?_, ?_, ?_⟩
    · show dkeys (dset t.balances (canonicalName nm) []) = t.friends ++ [canonicalName nm]
      rw [dkeys_dset_not_mem _ hck, hk]
    · show (t.friends ++ [canonicalName nm]).Nodup
      simp [List.nodup_append, hnd, hc]
    · show antisymB (dset t.balances (canonicalName nm) [])
      intro A B u hu
      rw [dget2_dset_empty] at hu
      by_cases hA : A = canonicalName nm
      · rw [if_pos hA] at hu
        exact Option.noConfusion hu
      · rw [if_neg hA] at hu
        have hr := ha A B u hu
        rw [dget2_dset_empty]
        by_cases hB : B = canonicalName nm
        · exfalso
          rw [hB] at hr
          have hz : dget2 t.balances (canonicalName nm) A = none := by
            simp [dget2, hg]
          rw [hz] at hr
          exact Option.noConfusion hr
        · rw [if_neg hB]
          exact hr
    · show diagB (dset t.balances (canonicalName nm) [])
      intro A
      rw [dget2_dset_empty]
      by_cases hA : A = canonicalName nm
      · rw [if_pos hA]
      · rw [if_neg hA]
        exact hd A
    · show bsum (dset t.balances (canonicalName nm) []) = 0
      rw [bsum_dset, hg]
      simp [dsum, hs]

theorem TInv_add_expense (t : Tracker) (pb : String) (a : ℚ) (descr : String)
    (s : List String) (t2 : Tracker) (h : add_expense t pb a descr s = .ok t2)
    (ht : TInv t) : TInv t2 := by
  obtain ⟨b2, hub, ht2⟩ := add_expense_ok_inv t pb a descr s t2 h
  obtain ⟨hsm, hkeys, hanti, hdiag⟩ := update_balances_ok _ _ _ hub
  obtain ⟨hk, hnd, ha, hd, hsum⟩ := ht
  subst ht2
  refine ⟨?_, hnd, hanti ha, hdiag hd, ?_⟩
  · show dkeys b2 = t.friends
    rw [hkeys, hk]
  · show bsum b2 = 0
    rw [hsm, hsum]

theorem TInv_cancel (t : Tracker) (eid : String) (t2 : Tracker)
    (h : cancel_expense t eid = .ok t2) (ht : TInv t) : TInv t2 := by
  rw [cancel_expense] at h
  cases hfind : t.expenses.find? (fun e => e.id == eid) with
  | none =>
      rw [hfind] at h
      simp only [Except.ok.injEq] at h
      rw [← h]
      exact ht
  | some e =>
      rw [hfind] at h
      simp only [] at h
      by_cases hl : e.splitAmong.length = 0
      · rw [if_pos hl] at h
        exact absurd h (by simp)
      · rw [if_neg hl] at h
        cases hcf : pyFold (cancelStep e.paidBy (e.amount / (e.splitAmong.length : ℚ)))
            t.balances e.splitAmong with
        | error err => rw [hcf] at h; exact absurd h (by simp)
        | ok b2 =>
            rw [hcf] at h
            simp only [Except.ok.injEq] at h
            obtain ⟨hsm, hkeys, hanti, hdiag⟩ := cancel_fold_main _ _ _ _ _ hcf
            obtain ⟨hk, hnd, ha, hd, hsum⟩ := ht
            rw [← h]
            refine ⟨?_, hnd, hanti ha, hdiag hd, ?_⟩
            · show dkeys b2 = t.friends
              rw [hkeys, hk]
            · show bsum b2 = 0
              rw [hsm, hsum]

theorem stage_frame (t : Tracker) (descr : String) (a : ℚ) (pb : String)
    (s : List String) :
    (stage_bill t descr a pb s).balances = t.balances ∧
      (stage_bill t descr a pb s).friends = t.friends ∧
      (stage_bill t descr a pb s).expenses = t.expenses := by
  rw [stage_bill]
  by_cases hc : descr ≠ "" ∧ 0 < a ∧ pb ≠ "" ∧ s ≠ []
  · rw [if_pos hc]
    exact ⟨rfl, rfl, rfl⟩
  · rw [if_neg hc]
    exact ⟨rfl, rfl, rfl⟩

theorem TInv_stage (t : Tracker) (descr : String) (a : ℚ) (pb : String)
    (s : List String) (ht : TInv t) : TInv (stage_bill t descr a pb s) := by
  obtain ⟨hb, hf, he⟩ := stage_frame t descr a pb s
  unfold TInv at ht ⊢
  rw [hb, hf]
  exact ht

theorem billsFold_ind (P : Tracker → Prop)
    (hstep : ∀ t t2 pb a descr s, P t → add_expense t pb a descr s = .ok t2 → P t2)
    (bl : List Bill) :
    ∀ t t2, P t →
      pyFold (fun acc bi => add_expense acc bi.paidBy bi.amount bi.description bi.splitAmong)
        t bl = .ok t2 → P t2 := by
  induction bl with
  | nil =>
      intro t t2 hp h
      simp only [pyFold, Except.ok.injEq] at h
      rw [← h]
      exact hp
  | cons bi bl ih =>
      intro t t2 hp h
      obtain ⟨t1, hs, hrest⟩ := pyFold_ok_cons _ _ _ _ _ h
      exact ih t1 t2 (hstep t t1 _ _ _ _ hp hs) hrest

theorem submit_all_ok_inv (t t2 : Tracker) (h : submit_all t = .ok t2) :
    ∃ t3, pyFold
        (fun acc bi => add_expense acc bi.paidBy bi.amount bi.description bi.splitAmong)
        t t.bills = .ok t3 ∧ t2 = { t3 with bills := [] } := by
  rw [submit_all] at h
  cases hfold : pyFold
      (fun acc bi => add_expense acc bi.paidBy bi.amount bi.description bi.splitAmong)
      t t.bills with
  | error err => rw [hfold] at h; exact absurd h (by simp)
  | ok t3 =>
      rw [hfold] at h
      simp only [Except.ok.injEq] at h
      exact ⟨t3, rfl, h.symm⟩

theorem TInv_submit (t t2 : Tracker) (h : submit_all t = .ok t2) (ht : TInv t) :
    TInv t2 := by
  obtain ⟨t3, hfold, ht2⟩ := submit_all_ok_inv t t2 h
  have ht3 : TInv t3 :=
    billsFold_ind TInv
      (fun u u2 pb a d sp hp hx => TInv_add_expense u pb a d sp u2 hx hp)
      t.bills t t3 ht hfold
  subst ht2
  exact ht3

theorem DInv_add_friend (t : Tracker) (nm : String) (ht : DInv t) :
    DInv (add_friend t nm) := by
  obtain ⟨hnd, hd⟩ := ht
  simp only [add_friend]
  by_cases hc : canonicalName nm ∈ t.friends
  · rw [if_pos hc]
    exact ⟨hnd, hd⟩
  · rw [if_neg hc]
    constructor
    · show (dkeys (dset t.balances (canonicalName nm) [])).Nodup
      by_cases hk : canonicalName nm ∈ dkeys t.balances
      · rw [dkeys_dset_mem _ hk]
        exact hnd
      · rw [dkeys_dset_not_mem _ hk]
        simp [List.nodup_append, hnd, hk]
    · show diagB (dset t.balances (canonicalName nm) [])
      intro A
      rw [dget2_dset_empty]
      by_cases hA : A = canonicalName nm
      · rw [if_pos hA]
      · rw [if_neg hA]
        exact hd A

theorem DInv_remove (t : Tracker) (nm : String) (t2 : Tracker)
    (h : remove_friend t nm = .ok t2) (ht : DInv t) : DInv t2 := by
  obtain ⟨hnd, hd⟩ := ht
  rw [remove_friend] at h
  by_cases hm : nm ∈ t.friends
  · rw [if_pos hm] at h
    cases hg : dget? t.balances nm with
    | none => rw [hg] at h; exact absurd h (by simp)
    | some row =>
        rw [hg] at h
        simp only [Except.ok.injEq] at h
        rw [← h]
        constructor
        · show (dkeys (ddel t.balances nm)).Nodup
          rw [dkeys_ddel]
          exact hnd.erase _
        · intro A
          by_cases hA : A = nm
          · rw [hA]
            show (dget? (ddel t.balances nm) nm).bind (fun r => dget? r nm) = none
            rw [dget?_ddel_self _ hnd]
            rfl
          · show (dget? (ddel t.balances nm) A).bind (fun r => dget? r A) = none
            rw [dget?_ddel_ne hA]
            exact hd A
  · rw [if_neg hm] at h
    simp only [Except.ok.injEq] at h
    rw [← h]
    exact ⟨hnd, hd⟩

theorem DInv_add_expense (t : Tracker) (pb : String) (a : ℚ) (descr : String)
    (s : List String) (t2 : Tracker) (h : add_expense t pb a descr s = .ok t2)
    (ht : DInv t) : DInv t2 := by
  obtain ⟨b2, hub, ht2⟩ := add_expense_ok_inv t pb a descr s t2 h
  obtain ⟨hsm, hkeys, hanti, hdiag⟩ := update_balances_ok _ _ _ hub
  obtain ⟨hnd, hd⟩ := ht
  subst ht2
  refine ⟨?_, hdiag hd⟩
  show (dkeys b2).Nodup
  rw [hkeys]
  exact hnd

theorem DInv_cancel (t : Tracker) (eid : String) (t2 : Tracker)
    (h : cancel_expense t eid = .ok t2) (ht : DInv t) : DInv t2 := by
  rw [cancel_expense] at h
  cases hfind : t.expenses.find? (fun e => e.id == eid) with
  | none =>
      rw [hfind] at h
      simp only [Except.ok.injEq] at h
      rw [← h]
      exact ht
  | some e =>
      rw [hfind] at h
      simp only [] at h
      by_cases hl : e.splitAmong.length = 0
      · rw [if_pos hl] at h
        exact absurd h (by simp)
      · rw [if_neg hl] at h
        cases hcf : pyFold (cancelStep e.paidBy (e.amount / (e.splitAmong.length : ℚ)))
            t.balances e.splitAmong with
        | error err => rw [hcf] at h; exact absurd h (by simp)
        | ok b2 =>
            rw [hcf] at h
            simp only [Except.ok.injEq] at h
            obtain ⟨hsm, hkeys, hanti, hdiag⟩ := cancel_fold_main _ _ _ _ _ hcf
            obtain ⟨hnd, hd⟩ := ht
            rw [← h]
            refine ⟨?_, hdiag hd⟩
            show (dkeys b2).Nodup
            rw [hkeys]
            exact hnd

theorem DInv_stage (t : Tracker) (descr : String) (a : ℚ) (pb : String)
    (s : List String) (ht : DInv t) : DInv (stage_bill t descr a pb s) := by
  obtain ⟨hb, hf, he⟩ := stage_frame t descr a pb s
  unfold DInv at ht ⊢
  rw [hb]
  exact ht

theorem DInv_submit (t t2 : Tracker) (h : submit_all t = .ok t2) (ht : DInv t) :
    DInv t2 := by
  obtain ⟨t3, hfold, ht2⟩ := submit_all_ok_inv t t2 h
  have ht3 : DInv t3 :=
    billsFold_ind DInv
      (fun u u2 pb a d sp hp hx => DInv_add_expense u pb a d sp u2 hx hp)
      t.bills t t3 ht hfold
  subst ht2
  exact ht3

theorem run_ind (P : Tracker → Prop) (g : Op → Bool)
    (hstep : ∀ t t2 op, g op = true → P t → applyOp t op = .ok t2 → P t2) :
    ∀ (ops : List Op) (t t2 : Tracker), ops.all g = true → P t →
      run t ops = .ok t2 → P t2 := by
  intro ops
  induction ops with
  | nil =>
      intro t t2 _ hp h
      simp only [run, Except.ok.injEq] at h
      rw [← h]
      exact hp
  | cons op rest ih =>
      intro t t2 hall hp h
      rw [List.all_cons, Bool.and_eq_true] at hall
      simp only [run] at h
      cases ha : applyOp t op with
      | error e =>
          rw [ha] at h
          exact absurd h (by simp)
      | ok t1 =>
          rw [ha] at h
          exact ih t1 t2 hall.2 (hstep t t1 op hall.1 hp ha) h

theorem TInv_step (t t2 : Tracker) (op : Op) (hop : opKeeps op = true) (ht : TInv t)
    (h : applyOp t op = .ok t2) : TInv t2 := by
  cases op with
  | addFriend nm =>
      simp only [applyOp, Except.ok.injEq] at h
      rw [← h]
      exact TInv_add_friend t nm ht
  | removeFriend nm => exact absurd hop (by simp [opKeeps])
  | addExpense pb a d sp => exact TInv_add_expense t pb a d sp t2 (by simpa [applyOp] using h) ht
  | cancelExpense eid => exact TInv_cancel t eid t2 (by simpa [applyOp] using h) ht
  | stageBill d a pb sp =>
      simp only [applyOp, Except.ok.injEq] at h
      rw [← h]
      exact TInv_stage t d a pb sp ht
  | submitAll => exact TInv_submit t t2 (by simpa [applyOp] using h) ht

theorem DInv_step (t t2 : Tracker) (op : Op) (ht : DInv t)
    (h : applyOp t op = .ok t2) : DInv t2 := by
  cases op with
  | addFriend nm =>
      simp only [applyOp, Except.ok.injEq] at h
      rw [← h]
      exact DInv_add_friend t nm ht
  | removeFriend nm => exact DInv_remove t nm t2 (by simpa [applyOp] using h) ht
  | addExpense pb a d sp => exact DInv_add_expense t pb a d sp t2 (by simpa [applyOp] using h) ht
  | cancelExpense eid => exact DInv_cancel t eid t2 (by simpa [applyOp] using h) ht
  | stageBill d a pb sp =>
      simp only [applyOp, Except.ok.injEq] at h
      rw [← h]
      exact DInv_stage t d a pb sp ht
  | submitAll => exact DInv_submit t t2 (by simpa [applyOp] using h) ht

/-! ### Helpers for the claim theorems -/

theorem find?_append_of_none {α : Type} (p : α → Bool) (l1 l2 : List α)
    (h : ∀ x ∈ l1, p x = false) : (l1 ++ l2).find? p = l2.find? p := by
  induction l1 with
  | nil => simp
  | cons a l ih =>
      have hpa : ¬ p a = true := by
        rw [h a (List.mem_cons_self a l)]
        exact Bool.false_ne_true
      rw [List.cons_append, List.find?_cons_of_neg _ hpa]
      exact ih (fun x hx => h x (List.mem_cons_of_mem a hx))

theorem filter_ne_append_self (l : List Expense) (e : Expense)
    (h : ∀ x ∈ l, x.id ≠ e.id) :
    (l ++ [e]).filter (fun e2 => e2.id != e.id) = l := by
  rw [List.filter_append]
  have h1 : l.filter (fun e2 => e2.id != e.id) = l :=
    List.filter_eq_self.mpr (fun x hx => by
      simp only [bne_iff_ne, ne_eq, decide_not]
      simp [h x hx])
  have h2 : [e].filter (fun e2 => e2.id != e.id) = ([] : List Expense) := by simp
  rw [h1, h2, List.append_nil]

theorem fold_add_expenses (bl : List Bill) :
    ∀ t t2 : Tracker,
      pyFold (fun acc bi => add_expense acc bi.paidBy bi.amount bi.description bi.splitAmong)
        t bl = .ok t2 →
      t2.expenses = t.expenses ++ convertBills t.expenses.length bl ∧
        t2.bills = t.bills ∧ t2.friends = t.friends := by
  induction bl with
  | nil =>
      intro t t2 h
      simp only [pyFold, Except.ok.injEq] at h
      rw [← h]
      simp [convertBills]
  | cons bi bl ih =>
      intro t t2 h
      obtain ⟨t1, hs, hrest⟩ := pyFold_ok_cons _ _ _ _ _ h
      obtain ⟨b2, hub, ht1⟩ := add_expense_ok_inv _ _ _ _ _ _ hs
      obtain ⟨he, hb, hf⟩ := ih t1 t2 hrest
      subst ht1
      refine ⟨?_, hb, hf⟩
      rw [he]
      simp [convertBills, List.length_append]

/-! ### The claims -/

/-- C8: `add_friend` canonicalizes the name (trim plus per-word capitalize)
and is a no-op when the canonical form is already registered; in particular
adding "bob" and then "Bob" yields exactly one participant "Bob" with exactly
one empty balance row. -/
theorem claimC8_addFriend_idempotent :
    (∀ (t : Tracker) (n1 n2 : String), canonicalName n1 = canonicalName n2 →
        add_friend (add_friend t n1) n2 = add_friend t n1) ∧
      canonicalName "bob" = "Bob" ∧ canonicalName "Bob" = "Bob" ∧
      (add_friend (add_friend (initTracker "g") "bob") "Bob").friends = ["Bob"] ∧
      (add_friend (add_friend (initTracker "g") "bob") "Bob").balances
        = [("Bob", [])] := by
  refine ⟨?_, by decide, by decide, by decide, by decide⟩
  intro t n1 n2 hc
  by_cases h1 : canonicalName n1 ∈ t.friends
  · have e1 : add_friend t n1 = t := by
      simp only [add_friend]
      rw [if_pos h1]
    rw [e1]
    simp only [add_friend]
    rw [if_pos (show canonicalName n2 ∈ t.friends from hc ▸ h1)]
  · have e1 : add_friend t n1 = { t with
        friends := t.friends ++ [canonicalName n1],
        balances := dset t.balances (canonicalName n1) [] } := by
      simp only [add_friend]
      rw [if_neg h1]
    rw [e1]
    have h2 : canonicalName n2 ∈ t.friends ++ [canonicalName n1] := by
      rw [← hc]
      exact List.mem_append_right _ (List.mem_singleton_self _)
    simp only [add_friend]
    rw [if_pos (show canonicalName n2 ∈ ({ t with
      friends := t.friends ++ [canonicalName n1],
      balances := dset t.balances (canonicalName n1) [] } : Tracker).friends from h2)]

/-- Witness for C8 at the concrete names of the claim. -/
theorem claimC8_witness :
    canonicalName "bob" = canonicalName "Bob" ∧
      add_friend (add_friend (initTracker "w") "bob") "Bob"
        = add_friend (initTracker "w") "bob" :=
  ⟨by decide, claimC8_addFriend_idempotent.1 (initTracker "w") "bob" "Bob" (by decide)⟩

/-- C7: staging any number of bills leaves the balance matrix (and the settled
history) unchanged, and committing the queue converts each staged bill into a
settled expense in insertion order (ids continuing from the current count) and
clears the queue. -/
theorem claimC7_staging_isolation :
    (∀ (t : Tracker) (bs : List (String × ℚ × String × List String)),
        (bs.foldl (fun acc q => stage_bill acc q.1 q.2.1 q.2.2.1 q.2.2.2) t).balances
            = t.balances ∧
          (bs.foldl (fun acc q => stage_bill acc q.1 q.2.1 q.2.2.1 q.2.2.2) t).expenses
            = t.expenses) ∧
      ∀ t t2 : Tracker, submit_all t = .ok t2 →
        t2.bills = [] ∧
          t2.expenses = t.expenses ++ convertBills t.expenses.length t.bills := by
  constructor
  · intro t bs
    induction bs generalizing t with
    | nil => exact ⟨rfl, rfl⟩
    | cons q bs ih =>
        rw [List.foldl_cons]
        obtain ⟨hb, hf, he⟩ := stage_frame t q.1 q.2.1 q.2.2.1 q.2.2.2
        obtain ⟨ihb, ihe⟩ := ih (stage_bill t q.1 q.2.1 q.2.2.1 q.2.2.2)
        exact ⟨ihb.trans hb, ihe.trans he⟩
  · intro t t2 h
    obtain ⟨t3, hfold, ht2⟩ := submit_all_ok_inv t t2 h
    obtain ⟨he, hb, hf⟩ := fold_add_expenses t.bills t t3 hfold
    subst ht2
    exact ⟨rfl, he⟩

/-- Witness for C7: staging two bills on a fresh tracker changes nothing, and
submitting the one staged bill of `c7wTracker` converts and clears it. -/
theorem claimC7_witness :
    ((c7wStaged.foldl (fun acc q => stage_bill acc q.1 q.2.1 q.2.2.1 q.2.2.2)
          (initTracker "w")).balances = (initTracker "w").balances ∧
        (c7wStaged.foldl (fun acc q => stage_bill acc q.1 q.2.1 q.2.2.1 q.2.2.2)
          (initTracker "w")).expenses = (initTracker "w").expenses) ∧
      (c7wDone.bills = [] ∧
        c7wDone.expenses = c7wTracker.expenses ++
          convertBills c7wTracker.expenses.length c7wTracker.bills) :=
  ⟨claimC7_staging_isolation.1 (initTracker "w") c7wStaged,
    claimC7_staging_isolation.2 c7wTracker c7wDone (by decide)⟩

/-- C5 counterexample: after removing Bob, the entry
`balances["Alice"]["Bob"] = 5` (Bob as the inner key of Alice's row) is still
present, refuting "no balance entry keyed by P in either position remains". -/
theorem claimC5_counterexample :
    run (initTracker "g") c6Ops = .ok c6Tracker ∧
      "Bob" ∉ c6Tracker.friends ∧
      dget2 c6Tracker.balances "Alice" "Bob" = some 5 := by decide

/-- C5 (amended): for a present participant P, `remove_friend` removes P from
the participant set, deletes P's own balance row, and erases the first
occurrence of P from the `splitAmong` of every expense and bill — but leaves
every other participant's row untouched, so inner entries keyed by P remain. -/
theorem claimC5_remove_characterization (t : Tracker) (P : String)
    (hin : P ∈ t.friends) (hnd : (dkeys t.balances).Nodup)
    (hrow : (dget? t.balances P).isSome = true) :
    ∃ t2, remove_friend t P = .ok t2 ∧
      t2.friends = t.friends.erase P ∧
      dget? t2.balances P = none ∧
      (∀ Q, Q ≠ P → dget? t2.balances Q = dget? t.balances Q) ∧
      t2.expenses = t.expenses.map
        (fun e => { e with splitAmong := e.splitAmong.erase P }) ∧
      t2.bills = t.bills.map
        (fun bi => { bi with splitAmong := bi.splitAmong.erase P }) := by
  refine ⟨{ t with
            friends := t.friends.erase P,
            balances := ddel t.balances P,
            expenses := t.expenses.map
              (fun e => { e with splitAmong := e.splitAmong.erase P }),
            bills := t.bills.map
              (fun bi => { bi with splitAmong := bi.splitAmong.erase P }) },
    ?_, rfl, ?_, ?_, rfl, rfl⟩
  · rw [remove_friend, if_pos hin]
    cases hg : dget? t.balances P with
    | none => rw [hg] at hrow; exact absurd hrow (by simp)
    | some row => rfl
  · exact dget?_ddel_self P hnd
  · intro Q hQ
    exact dget?_ddel_ne hQ

/-- Witness for C5 at a concrete tracker whose expense, balances and one
staged bill all mention Bob. -/
theorem claimC5_witness :
    "Bob" ∈ c5wTracker.friends ∧
      (∃ t2, remove_friend c5wTracker "Bob" = .ok t2 ∧
        t2.friends = c5wTracker.friends.erase "Bob" ∧
        dget? t2.balances "Bob" = none ∧
        (∀ Q, Q ≠ "Bob" → dget? t2.balances Q = dget? c5wTracker.balances Q) ∧
        t2.expenses = c5wTracker.expenses.map
          (fun e => { e with splitAmong := e.splitAmong.erase "Bob" }) ∧
        t2.bills = c5wTracker.bills.map
          (fun bi => { bi with splitAmong := bi.splitAmong.erase "Bob" })) :=
  ⟨by decide,
    claimC5_remove_characterization c5wTracker "Bob" (by decide) (by decide) (by decide)⟩

/-- C9: a reachable state in which `cancel_expense` divides by zero: removing
Bob (the only member of expense 1's split list) empties the stored list, and
cancelling id "1" then computes `10 / 0` and raises `ZeroDivisionError`. -/
theorem claimC9_cancel_div_zero :
    run (initTracker "g") c9Ops = .ok c9Tracker ∧
      c9Tracker.expenses.map Expense.splitAmong = [[]] ∧
      cancel_expense c9Tracker "1" = .error .zeroDivisionError ∧
      run (initTracker "g") (c9Ops ++ [.cancelExpense "1"])
        = .error .zeroDivisionError := by decide

/-- C10: in `dupTracker` two settled expenses carry id "3"; cancelling "3"
removes both from the history but reverses only the first one's contribution
(share 4 of the amount-8 expense, not share 50 of the amount-100 one), so the
stored matrix (51) no longer matches the matrix implied by the remaining
history (1, as the replay shows). -/
theorem claimC10_duplicate_id_cancel :
    run (initTracker "g") dupOps = .ok dupTracker ∧
      (dupTracker.expenses.filter (fun e => e.id == "3")).length = 2 ∧
      cancel_expense dupTracker "3" = .ok dupCancelled ∧
      dupCancelled.expenses.filter (fun e => e.id == "3") = [] ∧
      dget2 dupCancelled.balances "Alice" "Bob" = some 51 ∧
      run (initTracker "g") replayOps = .ok replayTracker ∧
      replayTracker.expenses = dupCancelled.expenses ∧
      dget2 replayTracker.balances "Alice" "Bob" = some 1 ∧
      dupCancelled.balances ≠ replayTracker.balances := by decide

/-- C2: the id scheme `str(len(expenses) + 1)` reuses ids after a
cancellation: from `preTracker` (ids "1" and "3", count 2) the next recording
is assigned id "3" again, violating global uniqueness. -/
theorem claimC2_id_reuse :
    run (initTracker "g") preOps = .ok preTracker ∧
      preTracker.expenses.map Expense.id = ["1", "3"] ∧
      add_expense preTracker "Alice" 100 "x" ["Alice", "Bob"] = .ok dupTracker ∧
      dupTracker.expenses.map Expense.id = ["1", "3", "3"] := by decide

/-- C1: recording an expense in `preTracker` returns id "3" (a duplicate of an
existing id), and immediately cancelling that id does not restore the previous
state: the cancellation reverses the OLD amount-8 expense's contribution and
deletes both id-"3" expenses, leaving balance 51 instead of 5 and one expense
instead of two. -/
theorem claimC1_roundtrip_broken :
    run (initTracker "g") preOps = .ok preTracker ∧
      run preTracker [.addExpense "Alice" 100 "x" ["Alice", "Bob"],
        .cancelExpense "3"] = .ok dupCancelled ∧
      dupCancelled ≠ preTracker ∧
      dget2 preTracker.balances "Alice" "Bob" = some 5 ∧
      dget2 dupCancelled.balances "Alice" "Bob" = some 51 ∧
      preTracker.expenses.length = 2 ∧ dupCancelled.expenses.length = 1 := by decide

/-- C3 counterexample: a reachable state (record, remove Bob, re-add Bob,
record again) in which Alice and Bob are both participants yet
`balances["Alice"]["Bob"] = 10` while `balances["Bob"]["Alice"] = -5`,
refuting antisymmetry. -/
theorem claimC3_counterexample :
    run (initTracker "g") c3Ops = .ok c3Tracker ∧
      "Alice" ∈ c3Tracker.friends ∧ "Bob" ∈ c3Tracker.friends ∧
      dget2 c3Tracker.balances "Alice" "Bob" = some 10 ∧
      dget2 c3Tracker.balances "Bob" "Alice" = some (-5) ∧
      (10 : ℚ) ≠ -(-5 : ℚ) := by decide

/-- C3 (amended): in every reachable state the diagonal is never populated,
and in every state reachable WITHOUT `removeFriend` the populated part of the
matrix is antisymmetric: `balances[A][B] = v` implies `balances[B][A] = -v`. -/
theorem claimC3_antisymmetry (nm : String) (ops : List Op) (t : Tracker)
    (h : run (initTracker nm) ops = .ok t) :
    (noRemove ops = true →
        ∀ A B v, dget2 t.balances A B = some v → dget2 t.balances B A = some (-v)) ∧
      ∀ A, dget2 t.balances A A = none := by
  constructor
  · intro hnr A B v hv
    have ht : TInv t := run_ind TInv opKeeps
      (fun u u2 op hop hp hx => TInv_step u u2 op hop hp hx)
      ops (initTracker nm) t hnr (TInv_init nm) h
    exact ht.2.2.1 A B v hv
  · have hd : DInv t := run_ind DInv (fun _ => true)
      (fun u u2 op _ hp hx => DInv_step u u2 op hp hx)
      ops (initTracker nm) t (by simp) (DInv_init nm) h
    exact hd.2

/-- Witness for C3 at a concrete remove-free run. -/
theorem claimC3_witness :
    run (initTracker "w") c3wOps = .ok c3wTracker ∧ noRemove c3wOps = true ∧
      (∀ A B v, dget2 c3wTracker.balances A B = some v →
          dget2 c3wTracker.balances B A = some (-v)) ∧
      ∀ A, dget2 c3wTracker.balances A A = none := by
  refine ⟨by decide, by decide, ?_, ?_⟩
  · exact (claimC3_antisymmetry "w" c3wOps c3wTracker (by decide)).1 (by decide)
  · exact (claimC3_antisymmetry "w" c3wOps c3wTracker (by decide)).2

/-- C6 counterexample: after removing Bob the surviving stale entry makes the
populated entries of the matrix sum to 5, not 0. -/
theorem claimC6_counterexample :
    run (initTracker "g") c6Ops = .ok c6Tracker ∧
      bsum c6Tracker.balances = 5 ∧ (5 : ℚ) ≠ 0 := by decide

/-- C6 (amended): in every state reachable WITHOUT `removeFriend`, the sum of
all populated entries of the balance matrix is 0. -/
theorem claimC6_zero_sum (nm : String) (ops : List Op) (t : Tracker)
    (hnr : noRemove ops = true) (h : run (initTracker nm) ops = .ok t) :
    bsum t.balances = 0 := by
  have ht : TInv t := run_ind TInv opKeeps
    (fun u u2 op hop hp hx => TInv_step u u2 op hop hp hx)
    ops (initTracker nm) t hnr (TInv_init nm) h
  exact ht.2.2.2.2

/-- Witness for C6 at a concrete remove-free run. -/
theorem claimC6_witness :
    noRemove c6wOps = true ∧ run (initTracker "w") c6wOps = .ok c6wTracker ∧
      bsum c6wTracker.balances = 0 :=
  ⟨by decide, by decide, claimC6_zero_sum "w" c6wOps c6wTracker (by decide) (by decide)⟩

/-- C4 counterexample: after a 30-unit expense split three ways (share 10),
removing Carol shrinks the stored split list, and the later cancellation
recomputes the share as 30 / 2 = 15: the divisor is NOT frozen, and the
cancellation does not reverse the original contribution (Alice's row ends at
-5 toward Bob and a stale 10 toward Carol instead of returning to 0). -/
theorem claimC4_counterexample :
    run (initTracker "g") c4Ops = .ok c4Tracker ∧
      c4Tracker.expenses = [] ∧
      dget2 c4Tracker.balances "Alice" "Bob" = some (-5) ∧
      dget2 c4Tracker.balances "Alice" "Carol" = some 10 ∧
      dget2 c4Tracker.balances "Bob" "Alice" = some 5 := by decide

/-- C4 (amended): `cancel_expense` computes the per-person share from the
stored expense's amount and its CURRENT stored `splitAmong` list — the list
that `remove_friend` mutates, so the divisor is not frozen at creation time.
With that share it applies the reverse update (subtract from
`balances[payer][f]`, add to `balances[f][payer]` for every current member
`f ≠ payer`, with multiplicity for repeated names) and drops every expense
carrying the id. This characterization is independent of the arithmetic
model; an EXACT-inverse property is not claimed, because the program's
IEEE-754 double arithmetic can leave rounding residues on record-then-cancel
even when the stored list is unchanged. -/
theorem claimC4_cancel_current_share (t t2 : Tracker) (eid : String) (e : Expense)
    (hfind : t.expenses.find? (fun x => x.id == eid) = some e)
    (hcancel : cancel_expense t eid = .ok t2) :
    t2.expenses = t.expenses.filter (fun e2 => e2.id != eid) ∧
      ∀ A B, bview t2.balances A B =
        bview t.balances A B
          - e.amount / (e.splitAmong.length : ℚ) * (cntTo e.paidBy A B e.splitAmong : ℚ)
          + e.amount / (e.splitAmong.length : ℚ) * (cntFrom e.paidBy A B e.splitAmong : ℚ) := by
  rw [cancel_expense, hfind] at hcancel
  simp only [] at hcancel
  by_cases hl : e.splitAmong.length = 0
  · rw [if_pos hl] at hcancel
    exact absurd hcancel (by simp)
  · rw [if_neg hl] at hcancel
    cases hcf : pyFold (cancelStep e.paidBy (e.amount / (e.splitAmong.length : ℚ)))
        t.balances e.splitAmong with
    | error err => rw [hcf] at hcancel; exact absurd hcancel (by simp)
    | ok b2 =>
        rw [hcf] at hcancel
        simp only [Except.ok.injEq] at hcancel
        constructor
        · rw [← hcancel]
        · intro A B
          rw [← hcancel]
          show bview b2 A B = _
          exact cancel_fold_bview e.paidBy (e.amount / (e.splitAmong.length : ℚ))
            e.splitAmong t.balances b2 hcf A B

/-- Witness for C4: cancelling id "1" in `c4wAfterAdd` removes the expense
and moves each populated pair by the share 10 / 2 computed from the currently
stored two-member split list. -/
theorem claimC4_share_witness :
    c4wAfterAdd.expenses.find? (fun x => x.id == "1")
        = some { id := "1", paidBy := "Alice", amount := 10, description := "d",
                 splitAmong := ["Alice", "Bob"] } ∧
      cancel_expense c4wAfterAdd "1" = .ok c4wAfterCancel ∧
      (c4wAfterCancel.expenses = c4wAfterAdd.expenses.filter (fun e2 => e2.id != "1") ∧
        ∀ A B, bview c4wAfterCancel.balances A B =
          bview c4wAfterAdd.balances A B
            - (10 : ℚ) / ((["Alice", "Bob"] : List String).length : ℚ)
              * (cntTo "Alice" A B ["Alice", "Bob"] : ℚ)
            + (10 : ℚ) / ((["Alice", "Bob"] : List String).length : ℚ)
              * (cntFrom "Alice" A B ["Alice", "Bob"] : ℚ)) :=
  ⟨by decide, by decide,
    claimC4_cancel_current_share c4wAfterAdd c4wAfterCancel "1"
      { id := "1", paidBy := "Alice", amount := 10, description := "d",
        splitAmong := ["Alice", "Bob"] } (by decide) (by decide)⟩

end TravelCalc